import Mathlib

/-!
Verification development for the agent-stack repository.

The definitions below are a shallow embedding of the Python sources:
* `src/agent/react_agent.py` — the tiered memory manager (`store_stm`,
  `_add_memory_for_users`, `_search_memories`, `run`),
* `src/dispatcher/dispatcher.py` — the session router (`proxy`, `route`)
  and sandbox provisioner (`ensure_agent`),
* `src/agent/tools/calculator.py` — `evaluate_expression`,
* `src/agent/main.py` — the thread-id encoding of the `/agent` endpoint.

State that lives in external services (the Redis list backing the STM
window, the mem0 vector store backing the LTM, the docker daemon, the
HTTP transport, the Python compiler/evaluator) is made explicit: the
Redis list for one thread becomes a Lean `List Turn`, the mem0 store a
`List MemRecord`, and the genuinely external behaviours (vector
similarity search, container runtime, network sends, Python bytecode
compilation/evaluation) are modelled from the spec as parameters or as
simple capability functions, each marked in its doc comment.
-/

namespace AgentStack

/-- The role of one conversational turn, as stored by `store_stm`
(`{"role": role, "text": text}` payloads in `react_agent.py`). -/
inductive Role where
  | human
  | assistant
deriving DecidableEq, Repr

/-- One STM turn: the JSON payload `{"role", "text"}` pushed onto the
per-thread Redis list `session:{thread_id}:history`. -/
structure Turn where
  role : Role
  text : String
deriving DecidableEq, Repr

/-- One LTM record, as written by `_add_memory_for_users` via
`self.mem.add(messages=..., user_id=..., run_id=..., metadata=...)`.
The metadata dict carries owner, visibility (overridden per target),
shared_with and source. -/
structure MemRecord where
  text : String
  user_id : String
  run_id : Option String
  owner : String
  visibility : String
  shared_with : List String
  source : String
deriving DecidableEq, Repr

/-- The LTM store contents, in insertion order. -/
abbrev MemStore := List MemRecord

/-- The record-matching condition used by the modelled similarity
search: same user, same run and (for this model) exact text match. -/
def memMatch (r : MemRecord) (query user_id : String) (run_id : Option String) : Prop :=
  r.user_id = user_id ∧ r.run_id = run_id ∧ r.text = query

instance (r : MemRecord) (query user_id : String) (run_id : Option String) :
    Decidable (memMatch r query user_id run_id) :=
  inferInstanceAs (Decidable (_ ∧ _ ∧ _))

/-- Modelled from the spec: the external LTM provider's search
capability (`self.mem.search(query, user_id, run_id, limit)` on the
mem0 client), a bounded similarity search restricted to
`(user_id, run_id)`.  The provider itself is an external collaborator;
we model its ranking as exact text match in store order, truncated to
`limit` — an arbitrary-text record set would only make the dedup check
weaker, never stronger. -/
def memSearch (store : MemStore) (query user_id : String) (run_id : Option String)
    (limit : Nat) : List MemRecord :=
  (store.filter fun r => decide (memMatch r query user_id run_id)).take limit

/-- Modelled from the spec: the external LTM provider's add capability
(`self.mem.add(...)`), an append-only write. -/
def memAdd (store : MemStore) (r : MemRecord) : MemStore :=
  store ++ [r]

/-- Model of `LangGraphReActAgent._search_memories`: call the provider search,
then (if a visibility filter is given) keep only the results whose
metadata visibility equals the filter.  Note the filter is applied
*after* the `limit` truncation, exactly as in the source. -/
def searchMemories (store : MemStore) (query user_id : String) (run_id : Option String)
    (visibilityFilter : Option String) (limit : Nat) : List MemRecord :=
  let results := memSearch store query user_id run_id limit
  match visibilityFilter with
  | some v => results.filter fun r => decide (r.visibility = v)
  | none => results

/-- One entry of the `targets` list built by `_add_memory_for_users`. -/
structure MemTarget where
  user_id : String
  run_id : Option String
  visibility : String
deriving DecidableEq, Repr

/-- The `targets` list of `_add_memory_for_users`: the owner
(visibility `"private" if not share else "shared"`, run = session), plus
— when `share and shared_with` — one entry per recipient with
`run_id = None` and visibility `"shared"`. -/
def addTargets (owner_user_id : String) (session_id : Option String) (share : Bool)
    (shared_with : List String) : List MemTarget :=
  [⟨owner_user_id, session_id, if share then "shared" else "private"⟩]
    ++ (if share ∧ shared_with ≠ [] then
          shared_with.map fun t => ⟨t, none, "shared"⟩
        else [])

/-- The body of the `for target in targets` loop of
`_add_memory_for_users`: search for a duplicate for this target
(query = the memory text, limit 1, visibility filter = the target's
visibility) and skip the write if anything was found, else add the
record with the per-target metadata. -/
def addMemoryStep (mem_item owner_user_id : String) (shared_with : List String)
    (source : String) (store : MemStore) (t : MemTarget) : MemStore :=
  let existing := searchMemories store mem_item t.user_id t.run_id (some t.visibility) 1
  if existing = [] then
    memAdd store ⟨mem_item, t.user_id, t.run_id, owner_user_id, t.visibility, shared_with, source⟩
  else
    store

/-- Model of `LangGraphReActAgent._add_memory_for_users`: best-effort fan-out of
one memory text to the owner and (when sharing) each recipient, with the
per-target duplicate check before each write. -/
def addMemoryForUsers (store : MemStore) (mem_item owner_user_id : String)
    (session_id : Option String) (share : Bool) (shared_with : List String)
    (source : String) : MemStore :=
  (addTargets owner_user_id session_id share shared_with).foldl
    (addMemoryStep mem_item owner_user_id shared_with source) store

/-- Split a character list at the first underscore:
`none` when no underscore occurs.  This is Python's
`s.split("_", 1)` destructured into two parts. -/
def splitFirstU : List Char → Option (List Char × List Char)
  | [] => none
  | c :: cs =>
    if c = '_' then some ([], cs)
    else
      match splitFirstU cs with
      | some (a, b) => some (c :: a, b)
      | none => none

/-- Python `thread_id.split("_", 1)` destructured into `(user_id, session_id)`;
`none` models the `ValueError` raised when no underscore is present. -/
def splitThreadId (t : String) : Option (String × String) :=
  match splitFirstU t.data with
  | some (a, b) => some (⟨a⟩, ⟨b⟩)
  | none => none

/-- The resolution of `(resolved_user, resolved_session)` inside
`store_stm`: keep the passed ids when both are truthy (non-None and
non-empty), otherwise re-derive both from `thread_id.split("_", 1)`. -/
def resolveIds (user_id session_id : Option String) (thread_id : String) :
    Option (String × String) :=
  match user_id, session_id with
  | some u, some s =>
    if u.data = [] ∨ s.data = [] then splitThreadId thread_id else some (u, s)
  | _, _ => splitThreadId thread_id

/-- The state of one conversation thread: its STM window (the Redis
list for `session:{thread_id}:history`, oldest first) and the LTM
store. -/
structure ThreadState where
  stm : List Turn
  mem : MemStore
deriving DecidableEq, Repr

/-- Redis `LTRIM key -window -1`: keep the last `window` elements —
except that for `window = 0` the start index `-0 = 0` keeps the whole
list. -/
def ltrimLast (window : Nat) (l : List α) : List α :=
  if window = 0 then l else l.drop (l.length - window)

/-- The f-string `f"Question:{first['text']}, Agent Answer:{second['text']}"`
built for a migrated `(question, answer)` pair. -/
def pairText (first second : Turn) : String :=
  "Question:" ++ first.text ++ ", Agent Answer:" ++ second.text

/-- Model of `LangGraphReActAgent.store_stm`: push the new turn, and if the
window is exceeded pop the oldest turn; when the popped turn is human
and the new head is assistant, also pop that head and migrate the pair
to the LTM; finally `LTRIM` to the last `window` entries.  The
`.error` result carries the thread state left behind when the
`thread_id.split("_", 1)` inside the migration branch raises (both
pops done, no trim, no LTM write). -/
def store_stm (st : ThreadState) (thread_id : String) (role : Role) (text : String)
    (window : Nat) (user_id session_id : Option String) (share : Bool)
    (shared_with : List String) : Except ThreadState ThreadState :=
  let pushed := st.stm ++ [⟨role, text⟩]
  if pushed.length > window then
    match pushed with
    | [] => .ok ⟨ltrimLast window [], st.mem⟩
    | first :: rest =>
      match rest with
      | next :: rest2 =>
        if first.role = .human ∧ next.role = .assistant then
          match resolveIds user_id session_id thread_id with
          | some (ru, rs) =>
            .ok ⟨ltrimLast window rest2,
                 addMemoryForUsers st.mem (pairText first next) ru (some rs) share
                   shared_with "stm_eviction"⟩
          | none => .error ⟨rest2, st.mem⟩
        else
          .ok ⟨ltrimLast window rest, st.mem⟩
      | [] => .ok ⟨ltrimLast window rest, st.mem⟩
  else
    .ok ⟨ltrimLast window pushed, st.mem⟩

/-- Model of `LangGraphReActAgent.load_stm` for the modelled thread: the full
retained window, oldest first. -/
def load_stm (st : ThreadState) : List Turn :=
  st.stm

/-- Specification vocabulary: the adjacent `(human, assistant)` pair at
the head of the overflowing window — the only shape `store_stm`
migrates. -/
def evictPair : List Turn → Option (Turn × Turn)
  | first :: next :: _ =>
    if first.role = .human ∧ next.role = .assistant then some (first, next) else none
  | _ => none

/-- The arguments of one `store_stm` call (everything except the thread
and the window size, which claims C1/C8 fix across a sequence). -/
structure StmCall where
  role : Role
  text : String
  user_id : Option String := none
  session_id : Option String := none
  share : Bool := false
  shared_with : List String := []

/-- Run a sequence of `store_stm` calls against one thread, stopping at
the first call that raises. -/
def runCalls (thread_id : String) (window : Nat) (st : ThreadState) :
    List StmCall → Except ThreadState ThreadState
  | [] => .ok st
  | c :: cs =>
    match store_stm st thread_id c.role c.text window c.user_id c.session_id
        c.share c.shared_with with
    | .ok st' => runCalls thread_id window st' cs
    | .error e => .error e

/-- The turns a sequence of calls inserts, in chronological order. -/
def insertedTurns (calls : List StmCall) : List Turn :=
  calls.map fun c => ⟨c.role, c.text⟩

/-! ## Session router and sandbox provisioner (`src/dispatcher/dispatcher.py`) -/

/-- Modelled from the spec: the outcome of one forwarding attempt of
`proxy` (the `httpx` POST into the sandbox, an external collaborator).
`connError` and `readTimeout` are the two exception classes named in
the `except (httpx.ConnectError, httpx.ReadTimeout)` clause; every
other failure — including a non-2xx status surfaced by
`r.raise_for_status()` — is `otherError`. -/
inductive SendOutcome where
  | ok (resp : String)
  | connError (msg : String)
  | readTimeout (msg : String)
  | otherError (msg : String)
deriving DecidableEq, Repr

deriving instance DecidableEq for Except

/-- The error that escapes `proxy`. -/
inductive ProxyErr where
  | conn (msg : String)
  | timeout (msg : String)
  | other (msg : String)
deriving DecidableEq, Repr

/-- The outcome of `proxy` plus the observable effort: how many POST
attempts were made and how many seconds were spent in `time.sleep(2)`
calls between attempts. -/
structure ProxyResult where
  result : Except ProxyErr String
  attempts : Nat
  sleptSeconds : Nat
deriving DecidableEq, Repr

/-- Whether an attempt outcome is one of the two transient errors the
retry loop catches. -/
def transientOutcome : SendOutcome → Prop
  | .connError _ => True
  | .readTimeout _ => True
  | _ => False

instance (o : SendOutcome) : Decidable (transientOutcome o) := by
  cases o <;> simp only [transientOutcome] <;> infer_instance

/-- The `ProxyErr` corresponding to a failed attempt outcome (the `ok`
case never reaches this conversion). -/
def outcomeErr : SendOutcome → ProxyErr
  | .connError m => .conn m
  | .readTimeout m => .timeout m
  | .otherError m => .other m
  | .ok _ => .other ""

/-- The `for attempt in range(max_retries)` loop of `proxy`, with
`rem` the number of loop iterations still available
(`rem = max_retries - attempt`).  A transient error retries after a
2-second sleep while `attempt < max_retries - 1`, then re-raises; any
other error propagates out of the loop at once.  `rem = 0` (falling
off the loop) would make Python return `None`; it is unreachable from
`proxy` and modelled as an error. -/
def proxyGo (send : Nat → SendOutcome) (max_retries : Nat) :
    (attempt : Nat) → (rem : Nat) → ProxyResult
  | _, 0 => ⟨.error (.other "proxy loop exhausted"), 0, 0⟩
  | attempt, rem + 1 =>
    match send attempt with
    | .ok r => ⟨.ok r, 1, 0⟩
    | .connError m =>
      if attempt < max_retries - 1 then
        let p := proxyGo send max_retries (attempt + 1) rem
        ⟨p.result, p.attempts + 1, p.sleptSeconds + 2⟩
      else ⟨.error (.conn m), 1, 0⟩
    | .readTimeout m =>
      if attempt < max_retries - 1 then
        let p := proxyGo send max_retries (attempt + 1) rem
        ⟨p.result, p.attempts + 1, p.sleptSeconds + 2⟩
      else ⟨.error (.timeout m), 1, 0⟩
    | .otherError m => ⟨.error (.other m), 1, 0⟩

/-- Model of `dispatcher.proxy`: the forwarding loop with `max_retries = 3`
(`ensure_agent` being modelled separately, `send` abstracts the POST to
`http://{name}:8080/agent`). -/
def proxy (send : Nat → SendOutcome) : ProxyResult :=
  proxyGo send 3 0 3

/-- A FastAPI-level response of the `/u/{user}/chat` route. -/
inductive RouteResponse where
  | ok (body : String)
  | httpError (status : Nat) (detail : String)
deriving DecidableEq, Repr

/-- The detail string `str(e)` of an escaped proxy error. -/
def proxyErrMsg : ProxyErr → String
  | .conn m => m
  | .timeout m => m
  | .other m => m

/-- Model of `dispatcher.route`: 400 when `session_id` is missing or empty
(`if not sess`), otherwise forward via `proxy` and turn any escaped
exception into a 502 with `str(e)` as detail. -/
def route (session_id : Option String) (send : Nat → SendOutcome) : RouteResponse :=
  match session_id with
  | none => .httpError 400 "missing session_id"
  | some s =>
    if s.data = [] then .httpError 400 "missing session_id"
    else
      match (proxy send).result with
      | .ok r => .ok r
      | .error e => .httpError 502 (proxyErrMsg e)

/-- One container as seen through the docker SDK. -/
structure ContainerInfo where
  name : String
  status : String
deriving DecidableEq, Repr

/-- The docker daemon state visible to `ensure_agent`: the containers
and the networks. -/
structure DockerState where
  containers : List ContainerInfo
  networks : List String
deriving DecidableEq, Repr

/-- Model of `dispatcher.ensure_network`: create the shared bridge network when
absent (idempotent). -/
def ensure_network (networkName : String) (d : DockerState) : DockerState :=
  if networkName ∈ d.networks then d else ⟨d.containers, d.networks ++ [networkName]⟩

/-- Model of `dispatcher.ensure_agent`.  The name is the deterministic
`f"agent-{user}"`.  The `try` block looks the container up and starts
it when stopped; only `docker.errors.NotFound` is caught, in which case
`containers.run(...)` creates the container.  Modelled from the spec:
`raceCreated` is the external race — a concurrent caller creating the
same name between the lookup and the create — in which case the docker
daemon answers the create with an `APIError` (409 name conflict), which
nothing in `ensure_agent` catches. -/
def ensure_agent (d : DockerState) (raceCreated : Bool) (networkName user : String) :
    Except String (String × DockerState) :=
  let name := "agent-" ++ user
  let d := ensure_network networkName d
  match d.containers.find? fun c => decide (c.name = name) with
  | some cont =>
    if cont.status ≠ "running" then
      .ok (name, ⟨d.containers.map fun c => if c.name = name then ⟨c.name, "running"⟩ else c,
                  d.networks⟩)
    else .ok (name, d)
  | none =>
    if raceCreated then
      .error ("APIError: 409 Client Error: Conflict (container name " ++ name ++
        " is already in use)")
    else .ok (name, ⟨d.containers ++ [⟨name, "running"⟩], d.networks⟩)

/-! ## Calculator tool (`src/agent/tools/calculator.py`) -/

/-- A compiled Python expression, reduced to the only attribute the
calculator inspects: `code.co_names`. -/
structure PyCode where
  co_names : List String
deriving DecidableEq, Repr

/-- Modelled from the Python runtime: the public names of the `math`
module (`dir(math)` without the underscore names, CPython 3.11). -/
def mathNames : List String :=
  ["acos", "acosh", "asin", "asinh", "atan", "atan2", "atanh", "cbrt", "ceil",
   "comb", "copysign", "cos", "cosh", "degrees", "dist", "e", "erf", "erfc",
   "exp", "exp2", "expm1", "fabs", "factorial", "floor", "fmod", "frexp",
   "fsum", "gamma", "gcd", "hypot", "inf", "isclose", "isfinite", "isinf",
   "isnan", "isqrt", "lcm", "ldexp", "lgamma", "log", "log10", "log1p",
   "log2", "modf", "nan", "nextafter", "perm", "pi", "pow", "prod",
   "radians", "remainder", "sin", "sinh", "sqrt", "tan", "tanh", "tau",
   "trunc", "ulp"]

/-- Constant `ALLOWED_NAMES` of `calculator.py`: every public `math` name plus
`abs`, `round`, `min`, `max`. -/
def allowedNames : List String :=
  mathNames ++ ["abs", "round", "min", "max"]

/-- What `evaluate_expression` returns: either the evaluated value or
one of its sentinel strings. -/
inductive CalcOutcome (V : Type) where
  | val (v : V)
  | str (s : String)
deriving DecidableEq, Repr

/-- Model of `calculator.evaluate_expression`.  The Python compiler and
evaluator are external capabilities, passed as `compileExpr`
(`compile(expression, "<expr>", "eval")`) and `evalExpr`
(`eval(code, {"__builtins__": {}}, ALLOWED_NAMES)`); an `Except.error`
models a raised exception, which the function's `try` turns into an
`f"Error: {exc}"` string.  The `for name in code.co_names` loop
returns the unsupported-identifier sentinel as soon as any name falls
outside the whitelist. -/
def evaluate_expression {V : Type} (compileExpr : Except String PyCode)
    (evalExpr : PyCode → Except String V) : CalcOutcome V :=
  match compileExpr with
  | .error exc => .str ("Error: " ++ exc)
  | .ok code =>
    if code.co_names.all fun n => allowedNames.contains n then
      match evalExpr code with
      | .ok v => .val v
      | .error exc => .str ("Error: " ++ exc)
    else .str "Unsupported identifier in expression"

/-! ## Thread-id encoding (`src/agent/main.py` `run_agent`) -/

/-- The thread id built by the `/agent` endpoint:
`f"{user_id}_{session_id}" if user_id and session_id else "default"`. -/
def threadIdOf (user_id session_id : String) : String :=
  if user_id.data = [] ∨ session_id.data = [] then "default"
  else user_id ++ "_" ++ session_id

/-! ## `LangGraphReActAgent.run` (`src/agent/react_agent.py`)

The string helpers below model the Python `str` operations `run` uses
(`in`, `split`, `replace`, `strip`) on character lists, so that every
definition reduces by computation. -/

/-- Remove `pat` from the front of `s`; `none` when `s` does not start
with `pat`. -/
def stripLead : (s pat : List Char) → Option (List Char)
  | s, [] => some s
  | [], _ :: _ => none
  | c :: cs, p :: ps => if c = p then stripLead cs ps else none

/-- Split at the first occurrence of `tag`: `some (before, after)`, or
`none` when `tag` does not occur (Python `tag in s` is `isSome`, and
`s.split(tag)` is this applied repeatedly). -/
def splitTag (tag : List Char) : List Char → Option (List Char × List Char)
  | [] => (stripLead [] tag).map fun r => ([], r)
  | c :: cs =>
    match stripLead (c :: cs) tag with
    | some rest => some ([], rest)
    | none => (splitTag tag cs).map fun p => (c :: p.1, p.2)

/-- Python `s.replace(pat, rep)` for a non-empty `pat`, written with
explicit fuel so that it stays structural (`fuel = s.length` always
suffices). -/
def replaceAllF (pat rep : List Char) : Nat → List Char → List Char
  | _, [] => []
  | 0, s => s
  | fuel + 1, c :: cs =>
    match stripLead (c :: cs) pat with
    | some rest => rep ++ replaceAllF pat rep fuel rest
    | none => c :: replaceAllF pat rep fuel cs

/-- Python `s.replace(pat, rep)` for a non-empty `pat`. -/
def replaceAll (pat rep s : List Char) : List Char :=
  replaceAllF pat rep s.length s

/-- The whitespace classes `str.strip()` removes (the ones reachable
from this code path). -/
def pyWhitespace (c : Char) : Bool :=
  c = ' ' ∨ c = '\n' ∨ c = '\t' ∨ c = '\r'

/-- Python `s.strip()`. -/
def stripChars (s : List Char) : List Char :=
  ((s.dropWhile pyWhitespace).reverse.dropWhile pyWhitespace).reverse

/-- The `<reasoning>` open tag. -/
def reasoningOpen : List Char := "<reasoning>".data

/-- The `</reasoning>` close tag. -/
def reasoningClose : List Char := "</reasoning>".data

/-- The reasoning extraction of `run`: when `"<reasoning>" in
final_text`, take `final_text.split("<reasoning>")[1]` (the chunk up to
the next open tag), cut it at the first `"</reasoning>"`, and remove
the literal `f"<reasoning>{reasoning_part}</reasoning>"` from the text
before stripping it. -/
def extractReasoning (raw : List Char) : List Char × Option (List Char) :=
  match splitTag reasoningOpen raw with
  | none => (raw, none)
  | some (_, rest) =>
    let seg :=
      match splitTag reasoningOpen rest with
      | some (a, _) => a
      | none => rest
    let reasoning :=
      match splitTag reasoningClose seg with
      | some (a, _) => a
      | none => seg
    (stripChars (replaceAll (reasoningOpen ++ reasoning ++ reasoningClose) [] raw),
     some reasoning)

/-- The dict `run` returns: `{response_text, reasoning}` on success,
`{error, traceback}` when the outer `except Exception` fires. -/
inductive RunOutput where
  | ok (response_text : String) (reasoning : Option String)
  | err (error : String) (traceback : String)
deriving DecidableEq, Repr

/-- Modelled from the Python runtime: `traceback.format_exc()` — an
opaque trace string that carries the exception message. -/
def tracebackOf (e : String) : String :=
  "Traceback (most recent call last): " ++ e

/-- The `(user_id, session_id)` resolution at the top of `run`:
`thread_id.split("_", 1) if thread_id else ("default_user",
"default_session")`; `none` models the `ValueError` when a non-empty
`thread_id` has no underscore. -/
def runThreadIds (thread_id : Option String) : Option (String × String) :=
  match thread_id with
  | none => some ("default_user", "default_session")
  | some t =>
    if t.data = [] then some ("default_user", "default_session")
    else splitThreadId t

/-- The printable role name of a turn (the `item['role']` strings). -/
def roleStr : Role → String
  | .human => "human"
  | .assistant => "assistant"

/-- The `stm_block` of `run`:
`"\n".join(f"{item['role']}: {item['text']}") or "No recent short-term memory."`. -/
def stmBlock (history : List Turn) : String :=
  let joined := String.intercalate "\n" (history.map fun t => roleStr t.role ++ ": " ++ t.text)
  if joined.data = [] then "No recent short-term memory." else joined

/-- The `stm_strings` set of `run` (modelled as a list; only membership
is ever used): `f"Question:{text}"` for the human turns and
`f"Agent Answer:{text}"` for the assistant turns. -/
def stmStrings (history : List Turn) : List String :=
  ((history.filter fun t => decide (t.role = .human)).map fun t => "Question:" ++ t.text)
    ++ ((history.filter fun t => decide (t.role = .assistant)).map
        fun t => "Agent Answer:" ++ t.text)

/-- The `memory_block` of `run`: hits whose text already appears in the
STM are dropped, the rest are rendered with a `[private]` or
`[shared from <owner>]` marker; both the no-hits and the all-filtered
cases collapse to the no-memory sentence. -/
def memoryBlock (hits : List MemRecord) (stmS : List String) : String :=
  if hits = [] then "No relevant memory retrieved."
  else
    let formatted := hits.filterMap fun r =>
      if stmS.contains r.text then none
      else
        some ("- " ++
          (if r.visibility = "shared" then "[" ++ r.visibility ++ " from " ++ r.owner ++ "]"
           else "[private]") ++ " " ++ r.text)
    if formatted = [] then "No relevant memory retrieved."
    else String.intercalate "\n" formatted

/-- The `memory_prefix` template of `run` (indentation collapsed). -/
def promptPreamble (stmB memB : String) : String :=
  "You are a ReAct agent with semantic memory.\n\n" ++
  "Here are memories relevant to the user's message.\n" ++
  "Use them *only if relevant*:\n### Short-Term Memory\n" ++ stmB ++
  "\n--- Retrieved Memory ---\n" ++ memB ++ "\n------------------------\n"

/-- The Redis key argument `run` hands to `store_stm` (`thread_id`,
which Python would render as the string `"None"` when absent). -/
def threadKey (thread_id : Option String) : String :=
  match thread_id with
  | some t => t
  | none => "None"

/-- Model of `LangGraphReActAgent.run`.  The Agent Runtime
(`self.agent.invoke`) is the external collaborator `invoke`, given the
system prompt and the human message; `.error` models a raised
exception.  Everything inside the Python `try` is modelled; the outer
`except Exception` becomes the `.err` results, which carry whatever
thread state the failed call left behind. -/
def run (invoke : String → String → Except String String) (st : ThreadState)
    (message : String) (thread_id : Option String) (system_prompt : Option String)
    (share : Bool) (shared_with : List String) : RunOutput × ThreadState :=
  match runThreadIds thread_id with
  | none => (.err "ValueError: not enough values to unpack (expected 2, got 1)"
      (tracebackOf "ValueError: not enough values to unpack (expected 2, got 1)"), st)
  | some (user_id, session_id) =>
    let private_hits := searchMemories st.mem message user_id (some session_id) none 3
    let shared_hits := searchMemories st.mem message user_id none (some "shared") 3
    let all_hits := private_hits ++ shared_hits.filter fun h => !private_hits.contains h
    let stm_history := load_stm st
    let stm_block := stmBlock stm_history
    let stmS := stmStrings stm_history
    let memory_block := memoryBlock all_hits stmS
    let prompt := promptPreamble stm_block memory_block ++
      (match system_prompt with | some sp => sp | none => "")
    match invoke prompt message with
    | .error e => (.err e (tracebackOf e), st)
    | .ok raw =>
      let extracted := extractReasoning raw.data
      let final_text : String := ⟨extracted.1⟩
      let reasoning : Option String := extracted.2.map fun r => ⟨r⟩
      match store_stm st (threadKey thread_id) .human message 5 (some user_id)
          (some session_id) share shared_with with
      | .error pst => (.err "store_stm raised" (tracebackOf "store_stm raised"), pst)
      | .ok st1 =>
        match store_stm st1 (threadKey thread_id) .assistant final_text 5 (some user_id)
            (some session_id) share shared_with with
        | .error pst => (.err "store_stm raised" (tracebackOf "store_stm raised"), pst)
        | .ok st2 =>
          let st3 :=
            if share then
              ⟨st2.stm,
               addMemoryForUsers st2.mem ("Question:" ++ message ++ ", Agent Answer:" ++ final_text)
                 user_id (some session_id) share shared_with "immediate_share"⟩
            else st2
          (.ok final_text reasoning, st3)

/-! ## Helper lemmas -/

theorem ltrimLast_nil (W : Nat) : ltrimLast W ([] : List α) = [] := by
  unfold ltrimLast
  split <;> simp

theorem ltrimLast_eq_drop (W : Nat) (l : List α) :
    ∃ d, d ≤ l.length ∧ ltrimLast W l = l.drop d := by
  unfold ltrimLast
  split
  · exact ⟨0, Nat.zero_le _, by simp⟩
  · exact ⟨l.length - W, Nat.sub_le _ _, rfl⟩

theorem length_ltrimLast_of_pos {W : Nat} (hW : 0 < W) (l : List α) :
    (ltrimLast W l).length ≤ W := by
  unfold ltrimLast
  split
  · omega
  · simp only [List.length_drop]
    omega

theorem splitFirstU_append (u s : List Char) (h : '_' ∉ u) :
    splitFirstU (u ++ '_' :: s) = some (u, s) := by
  induction u with
  | nil => simp [splitFirstU]
  | cons c cs ih =>
    have hc : ¬ c = '_' := fun hc => h (hc ▸ List.mem_cons_self c cs)
    have h' : '_' ∉ cs := fun hm => h (List.mem_cons_of_mem _ hm)
    simp [splitFirstU, hc, ih h']

theorem splitThreadId_encode (u s : String) (h : '_' ∉ u.data) :
    splitThreadId (u ++ "_" ++ s) = some (u, s) := by
  have hd : (u ++ "_" ++ s).data = (u.data ++ ['_']) ++ s.data := rfl
  rw [List.append_assoc] at hd
  simp [splitThreadId, hd, splitFirstU_append u.data s.data h]

theorem searchMemories_nil (query user_id : String) (run_id vis : Option String)
    (limit : Nat) : searchMemories [] query user_id run_id vis limit = [] := by
  unfold searchMemories memSearch
  cases vis <;> simp

/-- Inversion for successful `store_stm` calls: the four `.ok` branches
of the definition. -/
theorem store_stm_ok_cases {st st' : ThreadState} {tid : String} {role : Role} {text : String}
    {W : Nat} {u s : Option String} {sh : Bool} {sw : List String}
    (hok : store_stm st tid role text W u s sh sw = .ok st') :
    (¬ (st.stm ++ [(⟨role, text⟩ : Turn)]).length > W ∧
      st' = (⟨ltrimLast W (st.stm ++ [(⟨role, text⟩ : Turn)]), st.mem⟩ : ThreadState)) ∨
    ((st.stm ++ [(⟨role, text⟩ : Turn)]).length > W ∧
      ∃ first rest, st.stm ++ [(⟨role, text⟩ : Turn)] = first :: rest ∧
      ((rest = [] ∧ st' = (⟨ltrimLast W rest, st.mem⟩ : ThreadState)) ∨
       (∃ next rest2, rest = next :: rest2 ∧
         ((¬ (first.role = .human ∧ next.role = .assistant) ∧
            st' = (⟨ltrimLast W rest, st.mem⟩ : ThreadState)) ∨
          ((first.role = .human ∧ next.role = .assistant) ∧
            ∃ ru rs, resolveIds u s tid = some (ru, rs) ∧
            st' = (⟨ltrimLast W rest2,
                   addMemoryForUsers st.mem (pairText first next) ru (some rs) sh sw
                     "stm_eviction"⟩ : ThreadState)))))) := by
  simp only [store_stm] at hok
  split at hok
  · rename_i hov
    split at hok
    · rename_i heq
      exact absurd heq (by simp)
    · rename_i first rest heq
      split at hok
      · rename_i next rest2
        split at hok
        · rename_i hpair
          split at hok
          · rename_i p ru rs hres
            simp only [Except.ok.injEq] at hok
            exact Or.inr ⟨hov, first, next :: rest2, heq,
              Or.inr ⟨next, rest2, rfl, Or.inr ⟨hpair, ru, rs, hres, hok.symm⟩⟩⟩
          · exact Except.noConfusion hok
        · rename_i hpair
          simp only [Except.ok.injEq] at hok
          exact Or.inr ⟨hov, first, next :: rest2, heq,
            Or.inr ⟨next, rest2, rfl, Or.inl ⟨hpair, hok.symm⟩⟩⟩
      · simp only [Except.ok.injEq] at hok
        exact Or.inr ⟨hov, first, [], heq, Or.inl ⟨rfl, hok.symm⟩⟩
  · rename_i hov
    simp only [Except.ok.injEq] at hok
    exact Or.inl ⟨hov, hok.symm⟩

/-- A successful `store_stm` leaves some suffix of the pushed window:
only head drops and tail trims happen. -/
theorem store_stm_ok_shape {st st' : ThreadState} {tid : String} {role : Role} {text : String}
    {W : Nat} {u s : Option String} {sh : Bool} {sw : List String}
    (hok : store_stm st tid role text W u s sh sw = .ok st') :
    ∃ j, j ≤ (st.stm ++ [(⟨role, text⟩ : Turn)]).length ∧
      st'.stm = (st.stm ++ [(⟨role, text⟩ : Turn)]).drop j := by
  rcases store_stm_ok_cases hok with ⟨hov, rfl⟩ | ⟨hov, first, rest, heq, hcase⟩
  · obtain ⟨d, hd, hdrop⟩ := ltrimLast_eq_drop W (st.stm ++ [(⟨role, text⟩ : Turn)])
    exact ⟨d, hd, hdrop⟩
  · rcases hcase with ⟨hrest, rfl⟩ | ⟨next, rest2, hrest, hcase2⟩
    · subst hrest
      refine ⟨(st.stm ++ [(⟨role, text⟩ : Turn)]).length, le_rfl, ?_⟩
      simp [ltrimLast_nil, List.drop_length]
    · subst hrest
      rcases hcase2 with ⟨hpair, rfl⟩ | ⟨hpair, ru, rs, hres, rfl⟩
      · obtain ⟨d, hd, hdrop⟩ := ltrimLast_eq_drop W (next :: rest2)
        refine ⟨d + 1, ?_, ?_⟩
        · have hlen : (next :: rest2).length + 1 = (st.stm ++ [(⟨role, text⟩ : Turn)]).length := by
            rw [heq]
            simp
          omega
        · rw [heq]
          simpa [List.drop_succ_cons] using hdrop
      · obtain ⟨d, hd, hdrop⟩ := ltrimLast_eq_drop W rest2
        refine ⟨d + 2, ?_, ?_⟩
        · have hlen : rest2.length + 2 = (st.stm ++ [(⟨role, text⟩ : Turn)]).length := by
            rw [heq]
            simp
          omega
        · rw [heq]
          simpa [List.drop_succ_cons] using hdrop

/-- A successful `store_stm` preserves the window bound. -/
theorem store_stm_ok_length {st st' : ThreadState} {tid : String} {role : Role} {text : String}
    {W : Nat} {u s : Option String} {sh : Bool} {sw : List String}
    (hok : store_stm st tid role text W u s sh sw = .ok st')
    (hlen : st.stm.length ≤ W) : st'.stm.length ≤ W := by
  have hpush : (st.stm ++ [(⟨role, text⟩ : Turn)]).length = st.stm.length + 1 := by simp
  rcases store_stm_ok_cases hok with ⟨hov, rfl⟩ | ⟨hov, first, rest, heq, hcase⟩
  · have hWpos : 0 < W := by omega
    exact length_ltrimLast_of_pos hWpos _
  · have hrlen : rest.length + 1 = st.stm.length + 1 := by
      rw [← hpush, heq]
      simp
    rcases hcase with ⟨hrest, rfl⟩ | ⟨next, rest2, hrest, hcase2⟩
    · subst hrest
      simp [ltrimLast_nil]
    · subst hrest
      have hWpos : 0 < W := by
        simp only [List.length_cons] at hrlen
        omega
      rcases hcase2 with ⟨hpair, rfl⟩ | ⟨hpair, ru, rs, hres, rfl⟩
      · exact length_ltrimLast_of_pos hWpos _
      · exact length_ltrimLast_of_pos hWpos _

/-- Invariant form of C1 over a call sequence, from an arbitrary
bounded starting window. -/
theorem runCalls_shape (tid : String) (W : Nat) :
    ∀ (calls : List StmCall) (st st' : ThreadState),
      runCalls tid W st calls = .ok st' → st.stm.length ≤ W →
      st'.stm.length ≤ W ∧ ∃ k, st'.stm = (st.stm ++ insertedTurns calls).drop k := by
  intro calls
  induction calls with
  | nil =>
    intro st st' h hlen
    simp only [runCalls, Except.ok.injEq] at h
    subst h
    exact ⟨hlen, 0, by simp [insertedTurns]⟩
  | cons c cs ih =>
    intro st st' h hlen
    rw [runCalls] at h
    rcases hst : store_stm st tid c.role c.text W c.user_id c.session_id c.share
        c.shared_with with e | st1
    · rw [hst] at h
      exact Except.noConfusion h
    · rw [hst] at h
      have h1 := store_stm_ok_length hst hlen
      obtain ⟨hlen', k', hk'⟩ := ih st1 st' h h1
      obtain ⟨j, hj, hshape⟩ := store_stm_ok_shape hst
      refine ⟨hlen', k' + j, ?_⟩
      calc st'.stm = (st1.stm ++ insertedTurns cs).drop k' := hk'
        _ = ((st.stm ++ [(⟨c.role, c.text⟩ : Turn)]).drop j ++ insertedTurns cs).drop k' := by
              rw [hshape]
        _ = (((st.stm ++ [(⟨c.role, c.text⟩ : Turn)]) ++ insertedTurns cs).drop j).drop k' := by
              rw [List.drop_append_of_le_length hj]
        _ = ((st.stm ++ [(⟨c.role, c.text⟩ : Turn)]) ++ insertedTurns cs).drop (k' + j) := by
              rw [List.drop_drop, Nat.add_comm]
        _ = (st.stm ++ insertedTurns (c :: cs)).drop (k' + j) := by
              simp [insertedTurns]

/-- One fan-out step either skips (duplicate found) or appends exactly
the record for its target. -/
theorem addMemoryStep_shape (mem_item owner : String) (sw : List String) (source : String)
    (S : MemStore) (t : MemTarget) :
    addMemoryStep mem_item owner sw source S t = S ∨
    addMemoryStep mem_item owner sw source S t =
      S ++ [⟨mem_item, t.user_id, t.run_id, owner, t.visibility, sw, source⟩] := by
  unfold addMemoryStep memAdd
  by_cases h : searchMemories S mem_item t.user_id t.run_id (some t.visibility) 1 = []
  · exact Or.inr (by simp [h])
  · exact Or.inl (by simp [h])

/-- The whole fan-out loop only appends records carrying the migrated
text and the given source. -/
theorem foldl_addMemoryStep_shape (mem_item owner : String) (sw : List String)
    (source : String) :
    ∀ (ts : List MemTarget) (S : MemStore),
      ∃ new, ts.foldl (addMemoryStep mem_item owner sw source) S = S ++ new ∧
        ∀ r ∈ new, r.text = mem_item ∧ r.source = source := by
  intro ts
  induction ts with
  | nil => exact fun S => ⟨[], by simp, by simp⟩
  | cons t ts ih =>
    intro S
    rcases addMemoryStep_shape mem_item owner sw source S t with hstep | hstep
    · obtain ⟨new, hfold, hprop⟩ := ih S
      exact ⟨new, by rw [List.foldl_cons, hstep, hfold], hprop⟩
    · obtain ⟨new, hfold, hprop⟩ := ih
        (S ++ [⟨mem_item, t.user_id, t.run_id, owner, t.visibility, sw, source⟩])
      refine ⟨⟨mem_item, t.user_id, t.run_id, owner, t.visibility, sw, source⟩ :: new, ?_, ?_⟩
      · rw [List.foldl_cons, hstep, hfold]
        simp
      · intro r hr
        rcases List.mem_cons.mp hr with rfl | hr
        · exact ⟨rfl, rfl⟩
        · exact hprop r hr

/-- Membership in the store survives the fan-out loop. -/
theorem mem_foldl_addMemoryStep (mem_item owner : String) (sw : List String)
    (source : String) (ts : List MemTarget) (S : MemStore) (r : MemRecord) (hr : r ∈ S) :
    r ∈ ts.foldl (addMemoryStep mem_item owner sw source) S := by
  obtain ⟨new, hfold, -⟩ := foldl_addMemoryStep_shape mem_item owner sw source ts S
  rw [hfold]
  exact List.mem_append_left _ hr

/-- The store never shrinks across the fan-out loop. -/
theorem length_le_foldl_addMemoryStep (mem_item owner : String) (sw : List String)
    (source : String) (ts : List MemTarget) (S : MemStore) :
    S.length ≤ (ts.foldl (addMemoryStep mem_item owner sw source) S).length := by
  obtain ⟨new, hfold, -⟩ := foldl_addMemoryStep_shape mem_item owner sw source ts S
  rw [hfold]
  simp

/-- When the owner's duplicate check comes up empty, the fan-out
creates the owner record: it is present afterwards and the store grew. -/
theorem addMemoryForUsers_owner_mem (S : MemStore) (mem_item owner : String)
    (sess : Option String) (share : Bool) (sw : List String) (source : String)
    (hsearch : searchMemories S mem_item owner sess
      (some (if share then "shared" else "private")) 1 = []) :
    (⟨mem_item, owner, sess, owner, if share then "shared" else "private", sw, source⟩ :
      MemRecord) ∈ addMemoryForUsers S mem_item owner sess share sw source ∧
    S.length < (addMemoryForUsers S mem_item owner sess share sw source).length := by
  have hstep : addMemoryStep mem_item owner sw source S
      ⟨owner, sess, if share then "shared" else "private"⟩ =
      S ++ [⟨mem_item, owner, sess, owner, if share then "shared" else "private", sw, source⟩] := by
    unfold addMemoryStep memAdd
    simp only [hsearch, if_pos]
  unfold addMemoryForUsers addTargets
  rw [List.cons_append, List.nil_append, List.foldl_cons, hstep]
  constructor
  · exact mem_foldl_addMemoryStep mem_item owner sw source _ _ _ (by simp)
  · have hgrow := length_le_foldl_addMemoryStep mem_item owner sw source
      (if share ∧ sw ≠ [] then sw.map fun t => (⟨t, none, "shared"⟩ : MemTarget) else [])
      (S ++ [⟨mem_item, owner, sess, owner, if share then "shared" else "private", sw, source⟩])
    simp only [List.length_append, List.length_cons, List.length_nil] at hgrow
    omega

/-- A search over a single-record store whose record does not match the
query scope comes back empty. -/
theorem searchMemories_singleton_of_not {r : MemRecord} {q u : String} {rid : Option String}
    (vis : Option String) (lim : Nat) (h : ¬ memMatch r q u rid) :
    searchMemories [r] q u rid vis lim = [] := by
  unfold searchMemories memSearch
  have hd : decide (memMatch r q u rid) = false := decide_eq_false h
  cases vis <;> simp [List.filter_cons, hd]

theorem proxyGo_attempts_le (send : Nat → SendOutcome) (m : Nat) :
    ∀ (r a : Nat), (proxyGo send m a r).attempts ≤ r := by
  intro r
  induction r with
  | zero =>
    intro a
    simp [proxyGo]
  | succ n ih =>
    intro a
    cases h : send a
    case ok r' => simp [proxyGo, h]
    case connError msg =>
      simp only [proxyGo, h]
      split
      · have := ih (a + 1)
        simp only [ProxyResult.attempts]
        omega
      · simp
    case readTimeout msg =>
      simp only [proxyGo, h]
      split
      · have := ih (a + 1)
        simp only [ProxyResult.attempts]
        omega
      · simp
    case otherError msg => simp [proxyGo, h]

theorem proxy_all_transient (send : Nat → SendOutcome)
    (h0 : transientOutcome (send 0)) (h1 : transientOutcome (send 1))
    (h2 : transientOutcome (send 2)) :
    proxy send = ⟨.error (outcomeErr (send 2)), 3, 4⟩ := by
  rcases e0 : send 0 with r0 | m0 | m0 | m0 <;>
    rcases e1 : send 1 with r1 | m1 | m1 | m1 <;>
      rcases e2 : send 2 with r2 | m2 | m2 | m2 <;>
        simp only [e0, e1, e2, transientOutcome] at h0 h1 h2 <;>
          simp [proxy, proxyGo, e0, e1, e2, outcomeErr]

theorem proxy_other_stops (send : Nat → SendOutcome) (k : Nat) (m : String)
    (hk : k < 3) (hs : send k = .otherError m)
    (hprev : ∀ j, j < k → transientOutcome (send j)) :
    (proxy send).result = .error (.other m) ∧ (proxy send).attempts = k + 1 := by
  interval_cases k
  · simp [proxy, proxyGo, hs]
  · have t0 := hprev 0 (by omega)
    rcases e0 : send 0 with r0 | m0 | m0 | m0 <;>
      simp only [e0, transientOutcome] at t0 <;>
        simp [proxy, proxyGo, e0, hs]
  · have t0 := hprev 0 (by omega)
    have t1 := hprev 1 (by omega)
    rcases e0 : send 0 with r0 | m0 | m0 | m0 <;>
      simp only [e0, transientOutcome] at t0 <;>
        rcases e1 : send 1 with r1 | m1 | m1 | m1 <;>
          simp only [e1, transientOutcome] at t1 <;>
            simp [proxy, proxyGo, e0, e1, hs]

/-! ## Claim theorems -/

/-- C1: for every thread and every sequence of `store_stm` calls with a
fixed window size W, after each completed call the STM window holds at
most W turns, and the retained turns are a suffix of the inserted turns
in chronological (insertion) order. -/
theorem stm_window_bound (thread_id : String) (W : Nat) (mem0 : MemStore)
    (calls : List StmCall) (st' : ThreadState)
    (h : runCalls thread_id W ⟨[], mem0⟩ calls = .ok st') :
    st'.stm.length ≤ W ∧ ∃ k, st'.stm = (insertedTurns calls).drop k := by
  have hmain := runCalls_shape thread_id W calls ⟨[], mem0⟩ st' h (by simp)
  simpa using hmain

/-- C1 witness: the bound and the chronological-suffix property at a
concrete three-call sequence with window 1 (the middle call migrates a
pair, the last call refills the window). -/
theorem stm_window_bound_witness :
    (⟨[⟨.human, "Q2"⟩],
      [⟨"Question:Q1, Agent Answer:A1", "u", some "s", "u", "private", [], "stm_eviction"⟩]⟩ :
        ThreadState).stm.length ≤ 1 ∧
    ∃ k, (⟨[⟨.human, "Q2"⟩],
      [⟨"Question:Q1, Agent Answer:A1", "u", some "s", "u", "private", [], "stm_eviction"⟩]⟩ :
        ThreadState).stm =
      (insertedTurns
        [⟨.human, "Q1", some "u", some "s", false, []⟩,
         ⟨.assistant, "A1", some "u", some "s", false, []⟩,
         ⟨.human, "Q2", some "u", some "s", false, []⟩]).drop k :=
  stm_window_bound "u_s" 1 []
    [⟨.human, "Q1", some "u", some "s", false, []⟩,
     ⟨.assistant, "A1", some "u", some "s", false, []⟩,
     ⟨.human, "Q2", some "u", some "s", false, []⟩] _ rfl

/-- C8: starting from an empty thread with window 2, recording
(human Q1)(assistant A1)(human Q2)(assistant A2) leaves exactly the
last two turns in the STM and exactly one eviction-sourced LTM record
"Question:Q1, Agent Answer:A1" for the owner. -/
theorem window2_scenario :
    runCalls "alice_s1" 2 ⟨[], []⟩
      [⟨.human, "Q1", some "alice", some "s1", false, []⟩,
       ⟨.assistant, "A1", some "alice", some "s1", false, []⟩,
       ⟨.human, "Q2", some "alice", some "s1", false, []⟩,
       ⟨.assistant, "A2", some "alice", some "s1", false, []⟩] =
    .ok ⟨[⟨.human, "Q2"⟩, ⟨.assistant, "A2"⟩],
         [⟨"Question:Q1, Agent Answer:A1", "alice", some "s1", "alice", "private", [],
           "stm_eviction"⟩]⟩ := rfl

/-- C2 (amended): on overflow, an LTM migration runs if and only if the
two oldest turns form an adjacent (human, assistant) pair; every record
it creates carries exactly that pair's text (and eviction source), and
a record is in fact created whenever the owner's duplicate check finds
nothing; when the pair condition fails, the evicted oldest turn is
discarded and the LTM is untouched. -/
theorem stm_eviction_pairing (st : ThreadState) (tid : String) (role : Role) (text : String)
    (W : Nat) (uid sid : Option String) (share : Bool) (sw : List String) (st' : ThreadState)
    (hover : (st.stm ++ [(⟨role, text⟩ : Turn)]).length > W)
    (hok : store_stm st tid role text W uid sid share sw = .ok st') :
    (∃ newRecs, st'.mem = st.mem ++ newRecs ∧
      ∀ r ∈ newRecs, ∃ f n, evictPair (st.stm ++ [(⟨role, text⟩ : Turn)]) = some (f, n) ∧
        r.text = pairText f n ∧ r.source = "stm_eviction") ∧
    (evictPair (st.stm ++ [(⟨role, text⟩ : Turn)]) = none →
      st'.mem = st.mem ∧ st'.stm = ltrimLast W (st.stm ++ [(⟨role, text⟩ : Turn)]).tail) ∧
    (∀ f n, evictPair (st.stm ++ [(⟨role, text⟩ : Turn)]) = some (f, n) →
      st'.stm = ltrimLast W (st.stm ++ [(⟨role, text⟩ : Turn)]).tail.tail ∧
      ∀ ru rs, resolveIds uid sid tid = some (ru, rs) →
        searchMemories st.mem (pairText f n) ru (some rs)
          (some (if share then "shared" else "private")) 1 = [] →
        (⟨pairText f n, ru, some rs, ru, if share then "shared" else "private", sw,
          "stm_eviction"⟩ : MemRecord) ∈ st'.mem ∧ st.mem.length < st'.mem.length) := by
  rcases store_stm_ok_cases hok with ⟨hov, rfl⟩ | ⟨hov, first, rest, heq, hcase⟩
  · exact absurd hover hov
  · rcases hcase with ⟨hrest, rfl⟩ | ⟨next, rest2, hrest, hcase2⟩
    · subst hrest
      have hnone : evictPair (st.stm ++ [(⟨role, text⟩ : Turn)]) = none := by
        rw [heq]
        rfl
      refine ⟨⟨[], by simp, by simp⟩, fun _ => ⟨rfl, ?_⟩, fun f n hfn => ?_⟩
      · rw [heq]
        rfl
      · rw [hnone] at hfn
        exact Option.noConfusion hfn
    · subst hrest
      rcases hcase2 with ⟨hpair, rfl⟩ | ⟨hpair, ru, rs, hres, rfl⟩
      · have hnone : evictPair (st.stm ++ [(⟨role, text⟩ : Turn)]) = none := by
          rw [heq]
          simp [evictPair, hpair]
        refine ⟨⟨[], by simp, by simp⟩, fun _ => ⟨rfl, ?_⟩, fun f n hfn => ?_⟩
        · rw [heq]
          rfl
        · rw [hnone] at hfn
          exact Option.noConfusion hfn
      · have hsome : evictPair (st.stm ++ [(⟨role, text⟩ : Turn)]) = some (first, next) := by
          rw [heq]
          simp [evictPair, hpair]
        refine ⟨?_, fun hnone => ?_, fun f n hfn => ?_⟩
        · obtain ⟨new, hfold, hprop⟩ := foldl_addMemoryStep_shape (pairText first next) ru sw
            "stm_eviction" (addTargets ru (some rs) share sw) st.mem
          exact ⟨new, hfold, fun r hr => ⟨first, next, hsome, hprop r hr⟩⟩
        · rw [hsome] at hnone
          exact Option.noConfusion hnone
        · rw [hsome] at hfn
          obtain ⟨hf, hn⟩ : first = f ∧ next = n := by
            have := Option.some.inj hfn
            exact ⟨congrArg Prod.fst this, congrArg Prod.snd this⟩
          subst hf
          subst hn
          refine ⟨by rw [heq]; rfl, fun ru' rs' hres' hsearch => ?_⟩
          rw [hres] at hres'
          obtain ⟨hru, hrs⟩ : ru = ru' ∧ rs = rs' := by
            have := Option.some.inj hres'
            exact ⟨congrArg Prod.fst this, congrArg Prod.snd this⟩
          subst hru
          subst hrs
          exact addMemoryForUsers_owner_mem st.mem (pairText first next) ru (some rs) share sw
            "stm_eviction" hsearch

/-- C2 witness: a concrete overflowing call whose oldest two turns form
the pair; the migrated record lands in the LTM. -/
theorem stm_eviction_pairing_witness :
    (⟨"Question:Q1, Agent Answer:A1", "u", some "s", "u", "private", [], "stm_eviction"⟩ :
        MemRecord) ∈
      (⟨[], [⟨"Question:Q1, Agent Answer:A1", "u", some "s", "u", "private", [],
          "stm_eviction"⟩]⟩ : ThreadState).mem ∧
    ([] : MemStore).length <
      (⟨[], [⟨"Question:Q1, Agent Answer:A1", "u", some "s", "u", "private", [],
          "stm_eviction"⟩]⟩ : ThreadState).mem.length := by
  have h := stm_eviction_pairing ⟨[⟨.human, "Q1"⟩], []⟩ "u_s" .assistant "A1" 1
    (some "u") (some "s") false []
    ⟨[], [⟨"Question:Q1, Agent Answer:A1", "u", some "s", "u", "private", [], "stm_eviction"⟩]⟩
    (by simp) rfl
  exact (h.2.2 ⟨.human, "Q1"⟩ ⟨.assistant, "A1"⟩ rfl).2 "u" "s" rfl rfl

/-- C2 counterexample: the window overflows, the evicted oldest turn is
human and the next turn is assistant (the migration pair condition
holds), yet no LTM record is created, because the duplicate check finds
an identical record already stored — refuting the claimed
"record created if and only if the pair condition holds". -/
theorem stm_eviction_pairing_cex :
    evictPair (([⟨.human, "Q1"⟩, ⟨.assistant, "A1"⟩] : List Turn) ++ [⟨.human, "Q2"⟩]) =
      some (⟨.human, "Q1"⟩, ⟨.assistant, "A1"⟩) ∧
    2 + 1 > 1 ∧
    store_stm ⟨[⟨.human, "Q1"⟩, ⟨.assistant, "A1"⟩],
        [⟨"Question:Q1, Agent Answer:A1", "u", some "s", "u", "private", [], "stm_eviction"⟩]⟩
        "u_s" .human "Q2" 1 (some "u") (some "s") false [] =
      .ok ⟨[⟨.human, "Q2"⟩],
        [⟨"Question:Q1, Agent Answer:A1", "u", some "s", "u", "private", [], "stm_eviction"⟩]⟩ :=
  ⟨rfl, by omega, rfl⟩

/-- C3: evaluation of `_add_memory_for_users` at the failing input.
The store initially holds no record for the tuple
(alice, session s, "F", private) — only a *shared* record with the
same text.  Because `_search_memories` applies the visibility filter
after the limit-1 truncation, both calls see the shared record as the
single search hit, filter it away, conclude there is no duplicate, and
write — leaving two identical private records where the claim promises
exactly one. -/
theorem add_memory_dedup_bug :
    (([⟨"F", "alice", some "s", "alice", "shared", [], "stm_eviction"⟩] : MemStore).filter
        (fun r => decide (r.user_id = "alice" ∧ r.run_id = some "s" ∧ r.text = "F" ∧
          r.visibility = "private"))).length = 0 ∧
    ((addMemoryForUsers
        [⟨"F", "alice", some "s", "alice", "shared", [], "stm_eviction"⟩]
        "F" "alice" (some "s") false [] "manual").filter
        (fun r => decide (r.user_id = "alice" ∧ r.run_id = some "s" ∧ r.text = "F" ∧
          r.visibility = "private"))).length = 1 ∧
    ((addMemoryForUsers (addMemoryForUsers
        [⟨"F", "alice", some "s", "alice", "shared", [], "stm_eviction"⟩]
        "F" "alice" (some "s") false [] "manual")
        "F" "alice" (some "s") false [] "manual").filter
        (fun r => decide (r.user_id = "alice" ∧ r.run_id = some "s" ∧ r.text = "F" ∧
          r.visibility = "private"))).length = 2 :=
  ⟨rfl, rfl, rfl⟩

/-- C4 counterexample: with share=True and shared_with=["bob"], exactly
two records are created for the turn, but both carry visibility
"shared" — no private owner record exists, contradicting the claimed
"one for the owner scoped to the session that is private". -/
theorem share_scenario_cex :
    (run (fun _ _ => .ok "R") ⟨[], []⟩ "M" (some "alice_s") none true ["bob"]).2.mem.length = 2 ∧
    ((run (fun _ _ => .ok "R") ⟨[], []⟩ "M" (some "alice_s") none true ["bob"]).2.mem.filter
      fun r => decide (r.visibility = "private")) = [] ∧
    ((run (fun _ _ => .ok "R") ⟨[], []⟩ "M" (some "alice_s") none true ["bob"]).2.mem.filter
      fun r => decide (r.visibility = "shared")).length = 2 :=
  ⟨rfl, rfl, rfl⟩

/-- C4 (amended): recording a turn with share=True and
shared_with=["bob"] on a fresh thread immediately (without any window
overflow) creates exactly two LTM records for the (message, response)
pair: one for the owner scoped to the session with visibility shared,
and one for "bob" with scope None and visibility shared. -/
theorem share_two_records (uid sid msg resp : String)
    (hu : uid.data ≠ []) (hs : sid.data ≠ []) (hq : '_' ∉ uid.data)
    (hr : splitTag reasoningOpen resp.data = none) :
    run (fun _ _ => .ok resp) ⟨[], []⟩ msg (some (threadIdOf uid sid)) none true ["bob"] =
      (.ok resp none,
       ⟨[⟨.human, msg⟩, ⟨.assistant, resp⟩],
        [⟨"Question:" ++ msg ++ ", Agent Answer:" ++ resp, uid, some sid, uid, "shared",
          ["bob"], "immediate_share"⟩,
         ⟨"Question:" ++ msg ++ ", Agent Answer:" ++ resp, "bob", none, uid, "shared",
          ["bob"], "immediate_share"⟩]⟩) := by
  have ht : threadIdOf uid sid = uid ++ "_" ++ sid := by simp [threadIdOf, hu, hs]
  have hdata : (uid ++ "_" ++ sid).data = (uid.data ++ ['_']) ++ sid.data := rfl
  have hne : ¬ (uid ++ "_" ++ sid).data = [] := by
    rw [hdata]
    simp
  have hids : runThreadIds (some (threadIdOf uid sid)) = some (uid, sid) := by
    rw [ht]
    show (if (uid ++ "_" ++ sid).data = [] then some ("default_user", "default_session")
      else splitThreadId (uid ++ "_" ++ sid)) = some (uid, sid)
    rw [if_neg hne]
    exact splitThreadId_encode uid sid hq
  have heta : (⟨resp.data⟩ : String) = resp := rfl
  have hextr : extractReasoning resp.data = (resp.data, none) := by
    unfold extractReasoning
    rw [hr]
  have hst1 : store_stm ⟨[], []⟩ (threadKey (some (threadIdOf uid sid))) .human msg 5
      (some uid) (some sid) true ["bob"] = .ok ⟨[⟨.human, msg⟩], []⟩ := by
    simp [store_stm, ltrimLast]
  have hst2 : store_stm ⟨[⟨.human, msg⟩], []⟩ (threadKey (some (threadIdOf uid sid)))
      .assistant resp 5 (some uid) (some sid) true ["bob"] =
      .ok ⟨[⟨.human, msg⟩, ⟨.assistant, resp⟩], []⟩ := by
    simp [store_stm, ltrimLast]
  have hbob : ¬ memMatch ⟨"Question:" ++ msg ++ ", Agent Answer:" ++ resp, uid, some sid, uid,
      "shared", ["bob"], "immediate_share"⟩ ("Question:" ++ msg ++ ", Agent Answer:" ++ resp)
      "bob" none := by
    simp [memMatch]
  have hadd : addMemoryForUsers [] ("Question:" ++ msg ++ ", Agent Answer:" ++ resp) uid
      (some sid) true ["bob"] "immediate_share" =
      [⟨"Question:" ++ msg ++ ", Agent Answer:" ++ resp, uid, some sid, uid, "shared", ["bob"],
        "immediate_share"⟩,
       ⟨"Question:" ++ msg ++ ", Agent Answer:" ++ resp, "bob", none, uid, "shared", ["bob"],
        "immediate_share"⟩] := by
    unfold addMemoryForUsers addTargets
    simp [addMemoryStep, memAdd, searchMemories_nil,
      searchMemories_singleton_of_not (some "shared") 1 hbob]
  simp only [run, hids, searchMemories_nil, List.filter_nil, List.append_nil, load_stm,
    hextr, heta, hst1, hst2, hadd, Option.map_none']
  simp [hadd]

/-- C4 witness: the amended scenario at concrete values. -/
theorem share_two_records_witness :
    run (fun _ _ => .ok "R") ⟨[], []⟩ "M" (some (threadIdOf "alice" "s1")) none true ["bob"] =
      (.ok "R" none,
       ⟨[⟨.human, "M"⟩, ⟨.assistant, "R"⟩],
        [⟨"Question:M, Agent Answer:R", "alice", some "s1", "alice", "shared", ["bob"],
          "immediate_share"⟩,
         ⟨"Question:M, Agent Answer:R", "bob", none, "alice", "shared", ["bob"],
          "immediate_share"⟩]⟩) :=
  share_two_records "alice" "s1" "M" "R" (by decide) (by decide) (by decide) rfl

/-- C6: evaluation of `ensure_agent` at the failing input.  When the
container is absent at lookup time and a concurrent caller creates the
same name before the create step, the docker 409 name-conflict error
propagates out of `ensure_agent` instead of being treated as success;
without the race the call returns the address, and a stopped instance
is restarted and its address returned. -/
theorem ensure_agent_conflict :
    ensure_agent ⟨[], []⟩ true "agent_net" "alice" =
      .error "APIError: 409 Client Error: Conflict (container name agent-alice is already in use)" ∧
    ensure_agent ⟨[], []⟩ false "agent_net" "alice" =
      .ok ("agent-alice", ⟨[⟨"agent-alice", "running"⟩], ["agent_net"]⟩) ∧
    ensure_agent ⟨[⟨"agent-alice", "exited"⟩], ["agent_net"]⟩ false "agent_net" "alice" =
      .ok ("agent-alice", ⟨[⟨"agent-alice", "running"⟩], ["agent_net"]⟩) :=
  ⟨rfl, rfl, rfl⟩

/-- C10: the thread encoding of the `/agent` endpoint composed with the
decoding in `run` recovers `(user_id, session_id)` exactly when the
user id contains no underscore; an underscore in the user id makes the
decoded owner a different user. -/
theorem thread_id_roundtrip :
    (∀ u s : String, u.data ≠ [] → s.data ≠ [] → '_' ∉ u.data →
        splitThreadId (threadIdOf u s) = some (u, s)) ∧
    (∃ u s : String, u.data ≠ [] ∧ s.data ≠ [] ∧ '_' ∈ u.data ∧
        ∃ p : String × String, splitThreadId (threadIdOf u s) = some p ∧ p.1 ≠ u) := by
  constructor
  · intro u s hu hs hmem
    have ht : threadIdOf u s = u ++ "_" ++ s := by simp [threadIdOf, hu, hs]
    rw [ht, splitThreadId_encode u s hmem]
  · exact ⟨"a_b", "c", by decide, by decide, by decide,
      ⟨("a", "b_c"), by decide, by decide⟩⟩

/-- C10 witness: the round trip at a concrete underscore-free user id. -/
theorem thread_id_roundtrip_witness :
    splitThreadId (threadIdOf "alice" "s1") = some ("alice", "s1") :=
  thread_id_roundtrip.1 "alice" "s1" (by decide) (by decide) (by decide)

/-- C9: `evaluate_expression` is total over its external compile/eval
capabilities and returns exactly one of: the evaluated value, the
unsupported-identifier sentinel (whenever some referenced name falls
outside the whitelist), or an "Error: ..." string (whenever compilation
or evaluation raises). -/
theorem calculator_total {V : Type} (compileExpr : Except String PyCode)
    (evalExpr : PyCode → Except String V) :
    ((∃ v, evaluate_expression compileExpr evalExpr = .val v) ∨
      evaluate_expression compileExpr evalExpr = .str "Unsupported identifier in expression" ∨
      ∃ e, evaluate_expression compileExpr evalExpr = .str ("Error: " ++ e)) ∧
    (∀ e, compileExpr = .error e →
      evaluate_expression compileExpr evalExpr = .str ("Error: " ++ e)) ∧
    (∀ code, compileExpr = .ok code →
      (code.co_names.all fun n => allowedNames.contains n) = false →
      evaluate_expression compileExpr evalExpr = .str "Unsupported identifier in expression") ∧
    (∀ code e, compileExpr = .ok code →
      (code.co_names.all fun n => allowedNames.contains n) = true → evalExpr code = .error e →
      evaluate_expression compileExpr evalExpr = .str ("Error: " ++ e)) ∧
    (∀ code v, compileExpr = .ok code →
      (code.co_names.all fun n => allowedNames.contains n) = true → evalExpr code = .ok v →
      evaluate_expression compileExpr evalExpr = .val v) := by
  rcases compileExpr with e | code
  · refine ⟨Or.inr (Or.inr ⟨e, rfl⟩), ?_, ?_, ?_, ?_⟩
    · intro e' he
      cases he
      rfl
    · intro code he
      cases he
    · intro code e' he
      cases he
    · intro code v he
      cases he
  · by_cases hall : (code.co_names.all fun n => allowedNames.contains n) = true
    · rcases hev : evalExpr code with e | v
      · have hres : evaluate_expression (.ok code) evalExpr = .str ("Error: " ++ e) := by
          simp only [evaluate_expression, hall, hev, if_true]
        refine ⟨Or.inr (Or.inr ⟨e, hres⟩), ?_, ?_, ?_, ?_⟩
        · intro e' he
          cases he
        · intro c hc hb
          cases hc
          rw [hall] at hb
          cases hb
        · intro c e' hc hb he'
          cases hc
          rw [hev] at he'
          cases he'
          exact hres
        · intro c v hc hb hv
          cases hc
          rw [hev] at hv
          cases hv
      · have hres : evaluate_expression (.ok code) evalExpr = .val v := by
          simp only [evaluate_expression, hall, hev, if_true]
        refine ⟨Or.inl ⟨v, hres⟩, ?_, ?_, ?_, ?_⟩
        · intro e' he
          cases he
        · intro c hc hb
          cases hc
          rw [hall] at hb
          cases hb
        · intro c e' hc hb he'
          cases hc
          rw [hev] at he'
          cases he'
        · intro c v' hc hb hv
          cases hc
          rw [hev] at hv
          cases hv
          exact hres
    · have hb : (code.co_names.all fun n => allowedNames.contains n) = false := by
        revert hall
        cases code.co_names.all fun n => allowedNames.contains n <;> simp
      have hres : evaluate_expression (.ok code) evalExpr =
          .str "Unsupported identifier in expression" := by
        simp only [evaluate_expression, hb, Bool.false_eq_true, if_false]
      refine ⟨Or.inr (Or.inl hres), ?_, ?_, ?_, ?_⟩
      · intro e' he
        cases he
      · intro c hc _
        cases hc
        exact hres
      · intro c e' hc hb' he'
        cases hc
        rw [hb] at hb'
        cases hb'
      · intro c v hc hb' hv
        cases hc
        rw [hb] at hb'
        cases hb'

/-- C9 witness: a whitelisted expression evaluates to its value. -/
theorem calculator_total_witness :
    evaluate_expression (.ok ⟨["sin", "pi"]⟩) (fun _ => .ok (1 : Nat)) = .val 1 :=
  (calculator_total (.ok ⟨["sin", "pi"]⟩) (fun _ => .ok (1 : Nat))).2.2.2.2
    ⟨["sin", "pi"]⟩ 1 rfl (by decide) rfl

/-- C5: the router makes at most 3 forwarding attempts; when the first
three outcomes are all transient (connection error or read timeout) it
retries with a 2-second inter-attempt delay (two sleeps, 4 seconds in
total), propagates the last error, and the route handler surfaces a
502; a non-transient error propagates after the attempt in which it
occurs, with no further retries. -/
theorem router_retry_policy (send : Nat → SendOutcome) :
    (proxy send).attempts ≤ 3 ∧
    (transientOutcome (send 0) → transientOutcome (send 1) → transientOutcome (send 2) →
      (proxy send).result = .error (outcomeErr (send 2)) ∧
      (proxy send).attempts = 3 ∧ (proxy send).sleptSeconds = 4 ∧
      ∀ s : String, s.data ≠ [] →
        route (some s) send = .httpError 502 (proxyErrMsg (outcomeErr (send 2)))) ∧
    (∀ k m, k < 3 → send k = .otherError m → (∀ j, j < k → transientOutcome (send j)) →
      (proxy send).result = .error (.other m) ∧ (proxy send).attempts = k + 1) := by
  refine ⟨proxyGo_attempts_le send 3 3 0, ?_, ?_⟩
  · intro h0 h1 h2
    have hp := proxy_all_transient send h0 h1 h2
    refine ⟨by rw [hp], by rw [hp], by rw [hp], ?_⟩
    intro s hs
    simp [route, hs, hp]
  · intro k m hk hs hprev
    exact proxy_other_stops send k m hk hs hprev

/-- C5 witness: an always-unreachable sandbox exhausts exactly the
3-attempt budget with two 2-second sleeps and surfaces a 502. -/
theorem router_retry_policy_witness :
    (proxy fun _ => .connError "refused").result = .error (.conn "refused") ∧
    (proxy fun _ => .connError "refused").attempts = 3 ∧
    (proxy fun _ => .connError "refused").sleptSeconds = 4 ∧
    route (some "s1") (fun _ => .connError "refused") = .httpError 502 "refused" := by
  have h := (router_retry_policy fun _ => .connError "refused").2.1
    trivial trivial trivial
  exact ⟨h.1, h.2.1, h.2.2.1, h.2.2.2 "s1" (by decide)⟩

/-- C7: when the Agent Runtime invocation raises, `run` returns the
structured `{error, traceback}` payload and the thread state — STM and
LTM — is exactly what it was before the call. -/
theorem run_invoke_failure (st : ThreadState) (message : String) (thread_id : Option String)
    (system_prompt : Option String) (share : Bool) (shared_with : List String)
    (e : String) (ids : String × String) (hids : runThreadIds thread_id = some ids) :
    run (fun _ _ => .error e) st message thread_id system_prompt share shared_with =
      (.err e (tracebackOf e), st) := by
  obtain ⟨u, s⟩ := ids
  simp [run, hids]

/-- C7 witness: a concrete failing invocation leaves a concrete thread
state untouched. -/
theorem run_invoke_failure_witness :
    run (fun _ _ => .error "boom")
        ⟨[⟨.human, "hello"⟩], [⟨"F", "u", some "s", "u", "private", [], "stm_eviction"⟩]⟩
        "hi" (some "u_s") none false [] =
      (.err "boom" (tracebackOf "boom"),
       ⟨[⟨.human, "hello"⟩], [⟨"F", "u", some "s", "u", "private", [], "stm_eviction"⟩]⟩) :=
  run_invoke_failure
    ⟨[⟨.human, "hello"⟩], [⟨"F", "u", some "s", "u", "private", [], "stm_eviction"⟩]⟩
    "hi" (some "u_s") none false [] "boom" ("u", "s") rfl

end AgentStack
